import Mathlib

/-!
Shallow embedding of the UDP-Web-Logger log intake and distribution engine
(`app/log_storage.py`, `app/udp_listener.py`, `app/main.py`), together with
theorems settling the specification claims about it.

Machine conventions:
* A Python `datetime` in UTC is embedded as a `Timestamp` record of its
  calendar/clock components (the code always converts to UTC before using a
  timestamp, so only the UTC components matter).
* `deque(maxlen=C)` is embedded as a `List` with the bounded-push operation
  `pushBounded`.
* `asyncio.Queue(maxsize=Q)` is embedded as `SubQueue` (maxsize `0` means
  unbounded, as in asyncio); `put_nowait` drops the pushed element when the
  queue is full, mirroring the `except QueueFull: continue` in `_notify`.
* The filesystem is an association list from path to file contents, plus the
  `_current_log_file` marker and the `_file_handle` (embedded as the path the
  handle is open on, `none` when no handle is open).
* `datetime.now(timezone.utc)` is a parameter of `add_entry`.
-/

namespace UDPWebLogger

/-! ### Decimal digit rendering and reading (for `strftime`/`isoformat`) -/

/-- The ASCII digit character for `n % 10`. -/
def digitChar (n : Nat) : Char := Char.ofNat (48 + n % 10)

/-- Zero-padded fixed-width decimal rendering, most significant digit first:
`padDigits w n` renders `n % 10^w` using exactly `w` digit characters.
This is `"%0wd"` for values below `10^w`. -/
def padDigits : Nat → Nat → List Char
  | 0, _ => []
  | w + 1, n => digitChar (n / 10 ^ w) :: padDigits w n

/-- Numeric value of an ASCII digit character, `none` on a non-digit. -/
def charVal (c : Char) : Option Nat :=
  if 48 ≤ c.toNat ∧ c.toNat ≤ 57 then some (c.toNat - 48) else none

/-- Read exactly `w` digit characters, returning their value and the rest. -/
def readDigits : Nat → List Char → Option (Nat × List Char)
  | 0, cs => some (0, cs)
  | _ + 1, [] => none
  | w + 1, c :: cs =>
    match charVal c with
    | none => none
    | some d =>
      match readDigits w cs with
      | none => none
      | some (n, rest) => some (d * 10 ^ w + n, rest)

/-! ### Entry model (`LogEntry` in `log_storage.py`) -/

/-- The UTC components of a timezone-aware Python `datetime`. -/
structure Timestamp where
  year : Nat
  month : Nat
  day : Nat
  hour : Nat
  minute : Nat
  second : Nat
  microsecond : Nat
deriving DecidableEq, Repr

/-- Component ranges of a `datetime` value (Python enforces these at
construction time). -/
def Timestamp.Valid (t : Timestamp) : Prop :=
  1 ≤ t.year ∧ t.year ≤ 9999 ∧ 1 ≤ t.month ∧ t.month ≤ 12 ∧
  1 ≤ t.day ∧ t.day ≤ 31 ∧ t.hour < 24 ∧ t.minute < 60 ∧ t.second < 60 ∧
  t.microsecond < 1000000

instance (t : Timestamp) : Decidable t.Valid := by
  unfold Timestamp.Valid; infer_instance

/-- One log entry: arrival timestamp plus the normalized message line. -/
structure LogEntry where
  timestamp : Timestamp
  message : String
deriving DecidableEq, Repr

/-- Python `timestamp.astimezone(timezone.utc).isoformat().replace("+00:00", "Z")`:
`YYYY-MM-DDTHH:MM:SS[.ffffff]Z`, the fractional part omitted exactly when the
microsecond field is zero (CPython `datetime.isoformat`). -/
def isoTimestamp (t : Timestamp) : List Char :=
  padDigits 4 t.year ++ '-' ::
  (padDigits 2 t.month ++ '-' ::
  (padDigits 2 t.day ++ 'T' ::
  (padDigits 2 t.hour ++ ':' ::
  (padDigits 2 t.minute ++ ':' ::
  (padDigits 2 t.second ++
  (if t.microsecond = 0 then [] else '.' :: padDigits 6 t.microsecond) ++ ['Z'])))))

/-- Embeds `LogEntry.to_dict`: the serialized object with a timestamp field and
a message field,
embedded as the pair of its two field values. -/
def LogEntry.to_dict (e : LogEntry) : String × String :=
  (String.mk (isoTimestamp e.timestamp), e.message)

/-! ### Ring buffer (`deque(maxlen=C)`) and Python list slicing -/

/-- Python `deque.append` on a deque with `maxlen = C`: append on the right, then
evict from the left down to length `C`. -/
def pushBounded (C : Nat) (buf : List LogEntry) (e : LogEntry) : List LogEntry :=
  (buf ++ [e]).drop (buf.length + 1 - C)

/-- Python `l[-n:]` for a non-negative `n`: the last `n` elements, except that
`n = 0` (i.e. `l[-0:] = l[0:]`) yields the whole list. -/
def pySliceLastN (l : List LogEntry) (n : Nat) : List LogEntry :=
  if n = 0 then l else l.drop (l.length - n)

/-- Python `message.rstrip("\n")`: remove every trailing newline character. -/
def rstripNewlines (s : String) : String :=
  String.mk ((s.data.reverse.dropWhile (fun c => c = '\n')).reverse)

/-! ### Subscriber queues (`asyncio.Queue`) -/

/-- An `asyncio.Queue(maxsize=m)`; `maxsize = 0` means unbounded. -/
structure SubQueue where
  maxsize : Nat
  items : List LogEntry
deriving DecidableEq, Repr

/-- Python `asyncio.Queue.full()`: true iff `maxsize > 0` and `qsize() ≥ maxsize`. -/
def SubQueue.full (q : SubQueue) : Bool :=
  0 < q.maxsize ∧ q.maxsize ≤ q.items.length

/-- Python `queue.put_nowait(entry)` as used in `LogStorage._notify`: a full queue
raises `QueueFull`, which `_notify` swallows (`continue`), dropping the pushed
entry; otherwise the entry is enqueued at the tail. -/
def SubQueue.put_nowait (q : SubQueue) (e : LogEntry) : SubQueue :=
  if q.full then q else { q with items := q.items ++ [e] }

/-! ### File writer state -/

/-- The persistence-relevant state of `LogStorage`: the directory contents
(association list path ↦ file contents), the `_current_log_file` marker, and
`_file_handle` embedded as the path the open handle writes to. -/
structure FSState where
  files : List (String × String)
  current_log_file : Option String
  file_handle : Option String
deriving DecidableEq, Repr

/-- Python `new_path.open("a")` creates the file when absent (append mode). -/
def ensureFile (files : List (String × String)) (p : String) : List (String × String) :=
  if files.any (fun kv => kv.1 = p) then files else files ++ [(p, "")]

/-- Append `s` to the contents of the file at path `p`. -/
def appendTo (files : List (String × String)) (p : String) (s : String) :
    List (String × String) :=
  files.map (fun kv => if kv.1 = p then (kv.1, kv.2 ++ s) else kv)

/-- Embeds `LogStorage._get_log_file_path`: `timestamp.strftime("%Y-%m-%d.log")`
under the log directory `dir`. -/
def get_log_file_path (dir : String) (t : Timestamp) : String :=
  dir ++ "/" ++ String.mk (padDigits 4 t.year) ++ "-" ++
  String.mk (padDigits 2 t.month) ++ "-" ++ String.mk (padDigits 2 t.day) ++ ".log"

/-- Embeds `LogStorage._rotate_log_file`: close the current handle if one is open,
update the current-file marker, and open the new path in append mode. -/
def rotate_log_file (s : FSState) (newPath : String) : FSState :=
  { files := ensureFile s.files newPath
    current_log_file := some newPath
    file_handle := some newPath }

/-- The line written per entry: `f"[{timestamp}] {entry.message}\n"`. -/
def formatFileLine (e : LogEntry) : String :=
  "[" ++ String.mk (isoTimestamp e.timestamp) ++ "] " ++ e.message ++ "\n"

/-- Embeds `LogStorage._write_to_file`: rotate iff the target path differs from the
current-file marker, then append the formatted line through the handle (a
no-op if no handle is open). -/
def write_to_file (dir : String) (s : FSState) (e : LogEntry) : FSState :=
  let logPath := get_log_file_path dir e.timestamp
  let s' := if s.current_log_file ≠ some logPath then rotate_log_file s logPath else s
  match s'.file_handle with
  | some p => { s' with files := appendTo s'.files p (formatFileLine e) }
  | none => s'

/-! ### The intake engine (`LogStorage`) -/

/-- The configuration fields the engine reads (`AppConfig`). -/
structure Config where
  max_memory_logs : Nat
  log_dir : String
  keep_days : Int
  write_to_file : Bool
  udp_whitelist : List String
deriving DecidableEq, Repr

/-- The mutable state of a `LogStorage` instance. -/
structure StorageState where
  buffer : List LogEntry
  listeners : List SubQueue
  fs : FSState
deriving DecidableEq, Repr

/-- Embeds `LogStorage._notify`: non-blocking push of the entry to every subscriber
queue; a full queue drops the entry and the registry itself is untouched. -/
def notify (listeners : List SubQueue) (e : LogEntry) : List SubQueue :=
  listeners.map (fun q => q.put_nowait e)

/-- Embeds `LogStorage.add_entry` (`now` is `datetime.now(timezone.utc)`): build the
entry with the trailing newlines stripped, append it to the buffer, notify all
subscribers, and, when persistence is enabled, write it to file. -/
def add_entry (cfg : Config) (st : StorageState) (now : Timestamp) (message : String) :
    StorageState :=
  let e : LogEntry := { timestamp := now, message := rstripNewlines message }
  let st' : StorageState :=
    { buffer := pushBounded cfg.max_memory_logs st.buffer e
      listeners := notify st.listeners e
      fs := st.fs }
  if cfg.write_to_file then { st' with fs := write_to_file cfg.log_dir st'.fs e } else st'

/-- The entry that `add_entry` constructs and returns. -/
def add_entry_result (now : Timestamp) (message : String) : LogEntry :=
  { timestamp := now, message := rstripNewlines message }

/-- Embeds `LogStorage.get_recent`: serialize the last `limit` buffer entries
(Python slice `list(self._buffer)[-limit:]`). -/
def get_recent (st : StorageState) (limit : Nat) : List (String × String) :=
  (pySliceLastN st.buffer limit).map LogEntry.to_dict

/-- Embeds `LogStorage.clear_buffer`: `self._buffer.clear()`. -/
def clear_buffer (st : StorageState) : StorageState :=
  { st with buffer := [] }

/-- Embeds `LogStorage.subscribe`: register a fresh queue (default capacity 1000). -/
def subscribe (st : StorageState) (max_queue_size : Nat) : StorageState × SubQueue :=
  let q : SubQueue := { maxsize := max_queue_size, items := [] }
  ({ st with listeners := st.listeners ++ [q] }, q)

/-! ### Datagram listener (`udp_listener.py`) -/

/-- The line boundaries recognized by Python `str.splitlines`. -/
def isLineBreak (c : Char) : Bool :=
  c = '\n' ∨ c = '\r' ∨ c = '\x0b' ∨ c = '\x0c' ∨
  c = '\x1c' ∨ c = '\x1d' ∨ c = '\x1e' ∨ c = '\x85' ∨
  c = ' ' ∨ c = ' '

/-- Worker for `splitlinesPy`; `acc` is the current line, reversed. -/
def splitlinesAux : List Char → List Char → List (List Char)
  | [], acc => if acc.isEmpty then [] else [acc.reverse]
  | '\r' :: '\n' :: rest, acc => acc.reverse :: splitlinesAux rest []
  | c :: rest, acc =>
    if isLineBreak c then acc.reverse :: splitlinesAux rest []
    else splitlinesAux rest (c :: acc)

/-- Python `str.splitlines()`. -/
def splitlinesPy (s : String) : List String :=
  (splitlinesAux s.data []).map String.mk

/-- Embeds `UDPServerProtocol.datagram_received`, reduced to the lines it hands to
`LogStorage.add_entry`, in order. The datagram payload is given after the
total `data.decode("utf-8", errors="replace")` step. A non-empty whitelist
that does not contain the sender host discards the datagram; empty lines are
skipped; an empty payload (whose `splitlines()` is `[]`) falls back to the
payload itself via `splitlines() or [message]`. -/
def datagram_received (whitelist : List String) (host : String) (message : String) :
    List String :=
  if whitelist ≠ [] ∧ host ∉ whitelist then []
  else
    let lines := if (splitlinesPy message).isEmpty then [message] else splitlinesPy message
    lines.filter (fun line => line ≠ "")

/-- Ingest a burst of lines through `add_entry`, oldest first, all carrying
the same arrival timestamp. -/
def ingestLines (cfg : Config) (st : StorageState) (now : Timestamp)
    (lines : List String) : StorageState :=
  lines.foldl (fun s line => add_entry cfg s now line) st

/-! ### Retention sweeper (`LogStorage.cleanup_files`) -/

/-- Days per month in the proleptic Gregorian calendar. -/
def daysInMonth (year month : Nat) : Nat :=
  if month = 2 then
    if year % 4 = 0 ∧ (year % 100 ≠ 0 ∨ year % 400 = 0) then 29 else 28
  else if month = 4 ∨ month = 6 ∨ month = 9 ∨ month = 11 then 30
  else 31

/-- Days strictly before month `m` in a year of the given leap status. -/
def daysBeforeMonth (leap : Bool) (m : Nat) : Nat :=
  match m with
  | 1 => 0
  | 2 => 31
  | 3 => if leap then 60 else 59
  | 4 => if leap then 91 else 90
  | 5 => if leap then 121 else 120
  | 6 => if leap then 152 else 151
  | 7 => if leap then 182 else 181
  | 8 => if leap then 213 else 212
  | 9 => if leap then 244 else 243
  | 10 => if leap then 274 else 273
  | 11 => if leap then 305 else 304
  | 12 => if leap then 335 else 334
  | _ => 0

/-- Python `date(y, m, d).toordinal()`: proleptic Gregorian ordinal, with
`date(1, 1, 1).toordinal() = 1`. -/
def toOrdinal (y m d : Nat) : Nat :=
  365 * (y - 1) + (y - 1) / 4 - (y - 1) / 100 + (y - 1) / 400 +
  daysBeforeMonth (decide (y % 4 = 0 ∧ (y % 100 ≠ 0 ∨ y % 400 = 0))) m + d

/-- CPython `strptime` `%m` field: `1[0-2]|0[1-9]|[1-9]`, alternatives tried
in that order. Returns the month value and the unconsumed characters. -/
def readMonthField : List Char → Option (Nat × List Char)
  | '1' :: c :: rest =>
    if '0' ≤ c ∧ c ≤ '2' then some (10 + (c.toNat - 48), rest)
    else some (1, c :: rest)
  | '0' :: c :: rest =>
    if '1' ≤ c ∧ c ≤ '9' then some (c.toNat - 48, rest) else none
  | c :: rest =>
    if '1' ≤ c ∧ c ≤ '9' then some (c.toNat - 48, rest) else none
  | [] => none

/-- CPython `strptime` `%d` field: `3[01]|[12]\d|0[1-9]|[1-9]`, alternatives
tried in that order. -/
def readDayField : List Char → Option (Nat × List Char)
  | '3' :: c :: rest =>
    if c = '0' ∨ c = '1' then some (30 + (c.toNat - 48), rest)
    else some (3, c :: rest)
  | c₁ :: c₂ :: rest =>
    if (c₁ = '1' ∨ c₁ = '2') ∧ ('0' ≤ c₂ ∧ c₂ ≤ '9') then
      some ((c₁.toNat - 48) * 10 + (c₂.toNat - 48), rest)
    else if c₁ = '0' then
      if '1' ≤ c₂ ∧ c₂ ≤ '9' then some (c₂.toNat - 48, rest) else none
    else if '1' ≤ c₁ ∧ c₁ ≤ '9' then some (c₁.toNat - 48, c₂ :: rest)
    else none
  | [c] =>
    if '1' ≤ c ∧ c ≤ '9' then some (c.toNat - 48, []) else none
  | [] => none

/-- Python `datetime.strptime(s, "%Y-%m-%d").date()`: `%Y` is exactly four digits;
the whole string must be consumed; the resulting components must form a real
calendar date (else `ValueError`). -/
def parseDatePy (s : String) : Option (Nat × Nat × Nat) :=
  match readDigits 4 s.data with
  | none => none
  | some (y, rest) =>
    match rest with
    | '-' :: rest =>
      match readMonthField rest with
      | none => none
      | some (m, rest) =>
        match rest with
        | '-' :: rest =>
          match readDayField rest with
          | none => none
          | some (d, rest) =>
            if rest = [] ∧ 1 ≤ y ∧ 1 ≤ d ∧ d ≤ daysInMonth y m then some (y, m, d)
            else none
        | _ => none
    | _ => none

/-- Python `Path.stem` of a name matched by `glob("*.log")`: `none` when the name
does not end in `.log`; the stem drops the `.log` suffix except for the bare
name `".log"`, whose stem is itself. -/
def logStem (name : String) : Option String :=
  let cs := name.data
  if 4 ≤ cs.length ∧ cs.drop (cs.length - 4) = ['.', 'l', 'o', 'g'] then
    some (if cs.length = 4 then name else String.mk (cs.take (cs.length - 4)))
  else none

/-- Whether `cleanup_files` deletes the file `name`, given the cutoff ordinal
`cutoff = datetime.now(timezone.utc).date().toordinal() - keep_days`. -/
def sweepDeletes (cutoff : Int) (name : String) : Bool :=
  match (logStem name).bind parseDatePy with
  | none => false
  | some (y, m, d) => (toOrdinal y m d : Int) < cutoff

/-- Embeds `LogStorage.cleanup_files`, reduced to its effect on the log directory:
the surviving file names. No-op unless `write_to_file` is set and
`keep_days > 0`; otherwise every `*.log` file whose stem parses as a date
strictly older than `today − keep_days` is unlinked, the rest survive. -/
def cleanup_files (cfg : Config) (todayOrdinal : Nat) (names : List String) :
    List String :=
  if ¬ cfg.write_to_file then names
  else if cfg.keep_days ≤ 0 then names
  else names.filter (fun n => ! sweepDeletes ((todayOrdinal : Int) - cfg.keep_days) n)

/-! ### Parsing a serialized entry back -/

/-- Expect one exact character. -/
def expectChar (c : Char) : List Char → Option (List Char)
  | c' :: rest => if c' = c then some rest else none
  | [] => none

/-- Modelled from the spec: the repository serializes entries but contains no
parser for them; the round-trip property of §8 speaks of the serialized form
"when parsed back". This is the evident reader of the serialized timestamp
`YYYY-MM-DDTHH:MM:SS[.ffffff]Z` (ISO-8601 UTC, `Z` suffix, fractional part
optional), inverse to CPython `isoformat`. -/
def parseIsoTimestamp (cs : List Char) : Option Timestamp :=
  match readDigits 4 cs with
  | none => none
  | some (y, cs) =>
  match expectChar '-' cs with
  | none => none
  | some cs =>
  match readDigits 2 cs with
  | none => none
  | some (mo, cs) =>
  match expectChar '-' cs with
  | none => none
  | some cs =>
  match readDigits 2 cs with
  | none => none
  | some (d, cs) =>
  match expectChar 'T' cs with
  | none => none
  | some cs =>
  match readDigits 2 cs with
  | none => none
  | some (h, cs) =>
  match expectChar ':' cs with
  | none => none
  | some cs =>
  match readDigits 2 cs with
  | none => none
  | some (mi, cs) =>
  match expectChar ':' cs with
  | none => none
  | some cs =>
  match readDigits 2 cs with
  | none => none
  | some (s, cs) =>
  match cs with
  | '.' :: cs =>
    match readDigits 6 cs with
    | none => none
    | some (us, cs) =>
      if cs = ['Z'] ∧ us ≠ 0 then some ⟨y, mo, d, h, mi, s, us⟩ else none
  | ['Z'] => some ⟨y, mo, d, h, mi, s, 0⟩
  | _ => none

/-- Modelled from the spec: parse a serialized entry object back into a
`LogEntry` — the timestamp string through `parseIsoTimestamp`, the message
field taken verbatim. -/
def parseEntry (d : String × String) : Option LogEntry :=
  (parseIsoTimestamp d.1.data).map (fun t => { timestamp := t, message := d.2 })

/-- The HTTP layer's validation of the `limit` query parameter on
`GET /logs` (`Query(500, ge=1, le=5000)` in `main.py`). -/
def httpLimitAccepted (limit : Int) : Bool := 1 ≤ limit ∧ limit ≤ 5000

/-! ## Supporting lemmas -/

theorem sweepDeletes_iff (cutoff : Int) (n : String) :
    sweepDeletes cutoff n = true ↔
    ∃ stem y m d, logStem n = some stem ∧ parseDatePy stem = some (y, m, d) ∧
      (toOrdinal y m d : Int) < cutoff := by
  constructor
  · intro h
    unfold sweepDeletes at h
    cases hb : (logStem n).bind parseDatePy with
    | none => rw [hb] at h; simp at h
    | some ymd =>
      obtain ⟨y, m, d⟩ := ymd
      rw [hb] at h
      simp only [decide_eq_true_eq] at h
      obtain ⟨stem, hs, hp⟩ := Option.bind_eq_some.mp hb
      exact ⟨stem, y, m, d, hs, hp, h⟩
  · rintro ⟨stem, y, m, d, hs, hp, hlt⟩
    unfold sweepDeletes
    rw [Option.bind_eq_some.mpr ⟨stem, hs, hp⟩]
    simpa using hlt

theorem head?_dropWhile_not {p : Char → Bool} {l : List Char} {x : Char}
    (h : (l.dropWhile p).head? = some x) : p x = false := by
  induction l with
  | nil => simp [List.dropWhile] at h
  | cons a l ih =>
    rw [List.dropWhile_cons] at h
    by_cases hp : p a
    · rw [if_pos hp] at h; exact ih h
    · rw [if_neg hp] at h
      obtain rfl : a = x := by simpa using h
      simpa using hp

theorem rstrip_no_trailing_newline (s : String) :
    (rstripNewlines s).data.getLast? ≠ some '\n' := by
  intro h
  rw [rstripNewlines] at h
  have h' : ((s.data.reverse.dropWhile (fun c => c = '\n')).head?) = some '\n' := by
    simpa [List.getLast?_reverse] using h
  have := head?_dropWhile_not h'
  simp at this

theorem rstrip_decomp (s : String) :
    ∃ k, s.data = (rstripNewlines s).data ++ List.replicate k '\n' := by
  refine ⟨(s.data.reverse.takeWhile (fun c => c = '\n')).length, ?_⟩
  have hall : s.data.reverse.takeWhile (fun c => c = '\n') =
      List.replicate (s.data.reverse.takeWhile (fun c => c = '\n')).length '\n' :=
    List.eq_replicate_length.mpr (fun b hb => by
      simpa using List.mem_takeWhile_imp hb)
  conv_lhs => rw [← List.reverse_reverse s.data,
    ← List.takeWhile_append_dropWhile (p := fun c => decide (c = '\n'))
      (l := s.data.reverse)]
  rw [List.reverse_append, rstripNewlines]
  congr 1
  rw [hall, List.reverse_replicate, List.length_replicate]

theorem foldl_put_nowait (Q : Nat) (hQ : 0 < Q) (es : List LogEntry) :
    ∀ xs : List LogEntry,
      es.foldl SubQueue.put_nowait ⟨Q, xs⟩ = ⟨Q, xs ++ es.take (Q - xs.length)⟩ := by
  induction es with
  | nil => intro xs; simp
  | cons e es ih =>
    intro xs
    rw [List.foldl_cons]
    by_cases hfull : Q ≤ xs.length
    · have h1 : SubQueue.put_nowait ⟨Q, xs⟩ e = ⟨Q, xs⟩ := by
        simp [SubQueue.put_nowait, SubQueue.full, hQ, hfull]
      rw [h1, ih xs]
      have h2 : Q - xs.length = 0 := by omega
      simp [h2]
    · have h1 : SubQueue.put_nowait ⟨Q, xs⟩ e = ⟨Q, xs ++ [e]⟩ := by
        simp only [SubQueue.put_nowait, SubQueue.full]
        rw [if_neg (by simp; omega)]
      rw [h1, ih (xs ++ [e])]
      have h2 : Q - xs.length = (Q - (xs.length + 1)) + 1 := by omega
      simp only [List.length_append, List.length_cons, List.length_nil]
      rw [h2, List.take_succ_cons, List.append_assoc, List.singleton_append]

theorem length_pushBounded (C : Nat) (buf : List LogEntry) (e : LogEntry) :
    (pushBounded C buf e).length = min (buf.length + 1) C := by
  simp [pushBounded]; omega

theorem foldl_pushBounded (C : Nat) (es : List LogEntry) :
    ∀ buf : List LogEntry, buf.length ≤ C →
      es.foldl (pushBounded C) buf = (buf ++ es).drop (buf.length + es.length - C) := by
  induction es with
  | nil =>
    intro buf h
    have h0 : buf.length - C = 0 := by omega
    simp [h0]
  | cons e es ih =>
    intro buf h
    have hk : buf.length + 1 - C ≤ (buf ++ [e]).length := by simp
    have hle : (pushBounded C buf e).length ≤ C := by
      rw [length_pushBounded]; omega
    rw [List.foldl_cons, ih _ hle]
    simp only [pushBounded]
    rw [← List.drop_append_of_le_length hk, List.drop_drop]
    have hl : (buf ++ [e]) ++ es = buf ++ e :: es := by simp
    rw [hl]
    congr 1
    simp only [List.length_drop, List.length_append, List.length_cons,
      List.length_nil]
    omega

theorem charVal_digitChar_aux :
    ∀ k, k < 10 → charVal (Char.ofNat (48 + k)) = some k := by decide

theorem charVal_digitChar (n : Nat) : charVal (digitChar n) = some (n % 10) :=
  charVal_digitChar_aux (n % 10) (Nat.mod_lt _ (by norm_num))

theorem readDigits_padDigits :
    ∀ (w n : Nat) (rest : List Char),
      readDigits w (padDigits w n ++ rest) = some (n % 10 ^ w, rest) := by
  intro w
  induction w with
  | zero => intro n rest; simp [readDigits, padDigits, Nat.mod_one]
  | succ w ih =>
    intro n rest
    rw [padDigits, List.cons_append]
    simp only [readDigits, charVal_digitChar, ih]
    have hsplit : n % 10 ^ (w + 1) = n / 10 ^ w % 10 * 10 ^ w + n % 10 ^ w := by
      rw [pow_succ, Nat.mod_mul]
      ring
    rw [hsplit]

theorem parseIso_iso (t : Timestamp) (h : t.Valid) :
    parseIsoTimestamp (isoTimestamp t) = some t := by
  obtain ⟨y, mo, d, hh, mi, ss, us⟩ := t
  dsimp only [Timestamp.Valid] at h
  obtain ⟨h1, h2, h3, h4, h5, h6, h7, h8, h9, h10⟩ := h
  have hy : y % 10 ^ 4 = y := Nat.mod_eq_of_lt (by omega)
  have hmo : mo % 10 ^ 2 = mo := Nat.mod_eq_of_lt (by omega)
  have hd : d % 10 ^ 2 = d := Nat.mod_eq_of_lt (by omega)
  have hhh : hh % 10 ^ 2 = hh := Nat.mod_eq_of_lt (by omega)
  have hmi : mi % 10 ^ 2 = mi := Nat.mod_eq_of_lt (by omega)
  have hss : ss % 10 ^ 2 = ss := Nat.mod_eq_of_lt (by omega)
  have hus : us % 10 ^ 6 = us := Nat.mod_eq_of_lt (by omega)
  by_cases h0 : us = 0
  · subst h0
    simp only [isoTimestamp, if_pos rfl, List.nil_append, List.append_assoc,
      List.cons_append, parseIsoTimestamp, readDigits_padDigits, hy, hmo, hd,
      hhh, hmi, hss, expectChar, if_pos]
  · simp only [isoTimestamp, if_neg h0, List.append_assoc, List.cons_append,
      parseIsoTimestamp, readDigits_padDigits, hy, hmo, hd, hhh, hmi, hss, hus,
      expectChar, if_pos]
    simp [h0]

/-! ## Claim theorems -/

/-- Claim C1: with buffer capacity `C`, after any sequence of `N` insertions
the ring buffer never holds more than `C` entries (for every prefix),
insertion at capacity evicts the oldest entry, and `getRecent C` after all
insertions returns exactly the last `min N C` entries in arrival order (the
final buffer is `es.drop (es.length − C)`, whose length is `min N C`). -/
theorem ring_buffer_fifo (C : Nat) (es : List LogEntry) :
    (∀ k, ((es.take k).foldl (pushBounded C) []).length ≤ C) ∧
    (es.foldl (pushBounded C) []).length = min es.length C ∧
    (∀ (buf : List LogEntry) (e : LogEntry), buf.length = C → 0 < C →
      pushBounded C buf e = buf.tail ++ [e]) ∧
    es.foldl (pushBounded C) [] = es.drop (es.length - C) ∧
    pySliceLastN (es.foldl (pushBounded C) []) C = es.drop (es.length - C) := by
  have hfold : ∀ l : List LogEntry,
      l.foldl (pushBounded C) [] = l.drop (l.length - C) := fun l => by
    simpa using foldl_pushBounded C l [] (by simp)
  have hlen : (es.foldl (pushBounded C) []).length = min es.length C := by
    rw [hfold es]
    simp only [List.length_drop]
    omega
  refine ⟨fun k => ?_, hlen, fun buf e hC hpos => ?_, hfold es, ?_⟩
  · rw [hfold (es.take k)]
    simp only [List.length_drop]
    omega
  · have h1 : buf.length + 1 - C = 1 := by omega
    have h2 : (1 : Nat) ≤ buf.length := by omega
    rw [pushBounded, h1, List.drop_append_of_le_length h2, List.drop_one]
  · rw [pySliceLastN]
    by_cases hC : C = 0
    · rw [if_pos hC, hfold es]
    · rw [if_neg hC, hlen, hfold es]
      have h3 : min es.length C - C = 0 := by omega
      rw [h3, List.drop_zero]

/-- Witness for `ring_buffer_fifo`: inserting into a full capacity-2 buffer
evicts the oldest entry. -/
theorem ring_buffer_fifo_witness :
    pushBounded 2 [⟨⟨2024, 1, 5, 0, 0, 0, 0⟩, "a"⟩, ⟨⟨2024, 1, 5, 0, 0, 1, 0⟩, "b"⟩]
        ⟨⟨2024, 1, 5, 0, 0, 2, 0⟩, "c"⟩ =
      [⟨⟨2024, 1, 5, 0, 0, 1, 0⟩, "b"⟩, ⟨⟨2024, 1, 5, 0, 0, 2, 0⟩, "c"⟩] := by
  rw [(ring_buffer_fifo 2 []).2.2.1
    [⟨⟨2024, 1, 5, 0, 0, 0, 0⟩, "a"⟩, ⟨⟨2024, 1, 5, 0, 0, 1, 0⟩, "b"⟩]
    ⟨⟨2024, 1, 5, 0, 0, 2, 0⟩, "c"⟩ rfl (by omega)]
  rfl

/-- Claim C2 counterexample: `message.rstrip("\n")` strips every trailing
newline, not a single one (`"a\n\n"` becomes `"a"`, not `"a\n"`), and a
message that is empty after stripping is still appended to the buffer rather
than skipped (ingesting `"\n"` grows the empty buffer). -/
theorem add_entry_empty_message_counterexample :
    rstripNewlines "a\n\n" ≠ "a\n" ∧
    (add_entry ⟨10, "logs", 0, false, []⟩ ⟨[], [], ⟨[], none, none⟩⟩
        ⟨2024, 1, 5, 12, 0, 0, 0⟩ "\n").buffer ≠
      (⟨[], [], ⟨[], none, none⟩⟩ : StorageState).buffer := by
  decide

/-- Claim C2 as amended: `add_entry` strips every trailing newline character
(and only trailing newlines), never fails on any string content, and appends
the resulting entry unconditionally — a message that is empty after stripping
is stored as an entry with the empty message, the buffer is not left
unchanged. (Totality is inherent: the embedded `add_entry` is a total
function, and the Python code raises no exception on any string input.) -/
theorem add_entry_strips_and_appends (cfg : Config) (st : StorageState)
    (now : Timestamp) (msg : String) :
    (add_entry cfg st now msg).buffer =
      pushBounded cfg.max_memory_logs st.buffer ⟨now, rstripNewlines msg⟩ ∧
    (rstripNewlines msg).data.getLast? ≠ some '\n' ∧
    ∃ k, msg.data = (rstripNewlines msg).data ++ List.replicate k '\n' := by
  refine ⟨?_, rstrip_no_trailing_newline msg, rstrip_decomp msg⟩
  by_cases h : cfg.write_to_file <;> simp [add_entry, h]

/-- Claim C3 counterexample: with queue capacity 1 and two entries ingested
without draining, the deliverable entry is the first one — `put_nowait` on a
full queue drops the newly pushed entry, not the oldest queued one, so the
remaining run is the oldest, not the most recent. -/
theorem notify_drop_policy_counterexample :
    ((SubQueue.put_nowait
        (SubQueue.put_nowait ⟨1, []⟩ ⟨⟨2024, 1, 5, 0, 0, 0, 0⟩, "first"⟩)
        ⟨⟨2024, 1, 5, 0, 0, 1, 0⟩, "second"⟩).items =
      [⟨⟨2024, 1, 5, 0, 0, 0, 0⟩, "first"⟩]) ∧
    [(⟨⟨2024, 1, 5, 0, 0, 0, 0⟩, "first"⟩ : LogEntry)] ≠
      [⟨⟨2024, 1, 5, 0, 0, 1, 0⟩, "second"⟩] := by
  decide

/-- Claim C3 as amended: for a subscriber with queue capacity `Q > 0` that
does not drain, after `N` pushes exactly `min N Q` entries remain deliverable
and they are the OLDEST contiguous run since the last drain — the first `Q`
entries, the newly pushed entry being the one dropped when the queue is full;
no push ever blocks (the embedded push is a total function mirroring
`put_nowait` plus `except QueueFull: continue`) and no push removes the
subscriber (the registry is mapped in place, its length unchanged). -/
theorem notify_drops_newest (Q : Nat) (es : List LogEntry) (hQ : 0 < Q) :
    (es.foldl SubQueue.put_nowait ⟨Q, []⟩).items = es.take Q ∧
    (es.foldl SubQueue.put_nowait ⟨Q, []⟩).items.length = min es.length Q ∧
    (es.foldl SubQueue.put_nowait ⟨Q, []⟩).maxsize = Q ∧
    ∀ (ls : List SubQueue) (e : LogEntry), (notify ls e).length = ls.length := by
  have h := foldl_put_nowait Q hQ es []
  simp only [List.nil_append, Nat.sub_zero, List.length_nil] at h
  refine ⟨by rw [h], ?_, by rw [h], fun ls e => by simp [notify]⟩
  rw [h]
  simp [Nat.min_comm]

/-- Witness for `notify_drops_newest`: capacity 1, two pushes — the first
entry is the one that remains. -/
theorem notify_drops_newest_witness :
    (([⟨⟨2024, 1, 5, 0, 0, 0, 0⟩, "first"⟩, ⟨⟨2024, 1, 5, 0, 0, 1, 0⟩, "second"⟩] :
        List LogEntry).foldl SubQueue.put_nowait ⟨1, []⟩).items =
      [⟨⟨2024, 1, 5, 0, 0, 0, 0⟩, "first"⟩] := by
  rw [(notify_drops_newest 1
    [⟨⟨2024, 1, 5, 0, 0, 0, 0⟩, "first"⟩, ⟨⟨2024, 1, 5, 0, 0, 1, 0⟩, "second"⟩]
    (by omega)).1]
  rfl

/-- Claim C4: starting from a coherent writer state (the open handle is on
the current-file marker; `__init__` establishes this with both `None`, and
every write re-establishes it), a write whose target filename (from the
entry's UTC date) equals the current file appends to it with no rotation,
while a write whose target differs closes the old handle, opens the new file
in append mode (creating it if absent) and updates the marker — rotation
happens exactly on the first write whose UTC date differs; afterwards the
handle and the marker are both on the target file, and at most one handle is
open (the handle is a single optional field). -/
theorem file_writer_rotation (dir : String) (s : FSState) (e : LogEntry)
    (hco : s.file_handle = s.current_log_file) :
    ((write_to_file dir s e).file_handle =
        some (get_log_file_path dir e.timestamp) ∧
      (write_to_file dir s e).current_log_file =
        some (get_log_file_path dir e.timestamp) ∧
      (write_to_file dir s e).file_handle.toList.length ≤ 1) ∧
    (s.current_log_file = some (get_log_file_path dir e.timestamp) →
      write_to_file dir s e =
        { s with files := (appendTo s.files (get_log_file_path dir e.timestamp)
            (formatFileLine e)) }) ∧
    (s.current_log_file ≠ some (get_log_file_path dir e.timestamp) →
      write_to_file dir s e =
        ⟨appendTo (ensureFile s.files (get_log_file_path dir e.timestamp))
            (get_log_file_path dir e.timestamp) (formatFileLine e),
          some (get_log_file_path dir e.timestamp),
          some (get_log_file_path dir e.timestamp)⟩) := by
  by_cases heq : s.current_log_file = some (get_log_file_path dir e.timestamp)
  · have hw : write_to_file dir s e =
        { s with files := (appendTo s.files (get_log_file_path dir e.timestamp)
            (formatFileLine e)) } := by
      simp [write_to_file, hco, heq]
    rw [hw]
    exact ⟨⟨by rw [hco, heq], heq, by rw [hco, heq]; simp⟩,
      fun _ => rfl, fun hne => absurd heq hne⟩
  · have hw : write_to_file dir s e =
        ⟨appendTo (ensureFile s.files (get_log_file_path dir e.timestamp))
            (get_log_file_path dir e.timestamp) (formatFileLine e),
          some (get_log_file_path dir e.timestamp),
          some (get_log_file_path dir e.timestamp)⟩ := by
      simp [write_to_file, rotate_log_file, heq]
    rw [hw]
    exact ⟨⟨rfl, rfl, by simp⟩, fun h => absurd h heq, fun _ => rfl⟩

/-- Witness for `file_writer_rotation`: a write dated 2024-01-05 into a state
whose current file is dated 2024-01-04 rotates to the new day file, and a
write dated 2024-01-04 into the same state appends without rotating. -/
theorem file_writer_rotation_witness :
    write_to_file "logs"
        ⟨[("logs/2024-01-04.log", "old")], some "logs/2024-01-04.log",
          some "logs/2024-01-04.log"⟩
        ⟨⟨2024, 1, 5, 0, 0, 0, 0⟩, "m"⟩ =
      ⟨[("logs/2024-01-04.log", "old"),
        ("logs/2024-01-05.log", "[2024-01-05T00:00:00Z] m\n")],
        some "logs/2024-01-05.log", some "logs/2024-01-05.log"⟩ ∧
    write_to_file "logs"
        ⟨[("logs/2024-01-04.log", "old")], some "logs/2024-01-04.log",
          some "logs/2024-01-04.log"⟩
        ⟨⟨2024, 1, 4, 0, 0, 0, 0⟩, "m"⟩ =
      ⟨[("logs/2024-01-04.log", "old[2024-01-04T00:00:00Z] m\n")],
        some "logs/2024-01-04.log", some "logs/2024-01-04.log"⟩ := by
  constructor
  · rw [(file_writer_rotation "logs"
      ⟨[("logs/2024-01-04.log", "old")], some "logs/2024-01-04.log",
        some "logs/2024-01-04.log"⟩
      ⟨⟨2024, 1, 5, 0, 0, 0, 0⟩, "m"⟩ rfl).2.2 (by decide)]
    decide
  · rw [(file_writer_rotation "logs"
      ⟨[("logs/2024-01-04.log", "old")], some "logs/2024-01-04.log",
        some "logs/2024-01-04.log"⟩
      ⟨⟨2024, 1, 4, 0, 0, 0, 0⟩, "m"⟩ rfl).2.1 (by decide)]
    decide

/-- Claim C8: `clearBuffer` empties the ring buffer and changes nothing else —
persisted file contents, the open file handle and current-file marker, the
subscriber registry, and entries already sitting in subscriber queues are all
unchanged. -/
theorem clear_buffer_frame (st : StorageState) :
    (clear_buffer st).buffer = [] ∧
    (clear_buffer st).fs.files = st.fs.files ∧
    (clear_buffer st).fs.file_handle = st.fs.file_handle ∧
    (clear_buffer st).fs.current_log_file = st.fs.current_log_file ∧
    (clear_buffer st).listeners = st.listeners :=
  ⟨rfl, rfl, rfl, rfl, rfl⟩

/-- Claim C10: when file persistence is disabled (`write_to_file` false), a
retention sweep deletes no files at all, regardless of `keep_days` and of the
directory contents. -/
theorem cleanup_disabled_noop (cfg : Config) (today : Nat) (names : List String)
    (h : cfg.write_to_file = false) :
    cleanup_files cfg today names = names := by
  simp [cleanup_files, h]

/-- Witness for `cleanup_disabled_noop` at a concrete configuration and
directory listing. -/
theorem cleanup_disabled_noop_witness :
    cleanup_files ⟨100, "logs", 3, false, []⟩ 738886 ["0001-01-01.log"] =
      ["0001-01-01.log"] :=
  cleanup_disabled_noop ⟨100, "logs", 3, false, []⟩ 738886 ["0001-01-01.log"] rfl

/-- Claim C9: `get_recent limit` with `limit ≥ 1` returns the last
`min limit length` entries, but with `limit = 0` the Python slice `[-0:]`
selects the whole buffer; the HTTP layer masks the edge case only by
rejecting `limit = 0` (`ge=1`). -/
theorem get_recent_zero_limit (st : StorageState) (limit : Nat) :
    (1 ≤ limit →
      get_recent st limit =
        (st.buffer.drop (st.buffer.length - limit)).map LogEntry.to_dict ∧
      (st.buffer.drop (st.buffer.length - limit)).length =
        min limit st.buffer.length) ∧
    get_recent st 0 = st.buffer.map LogEntry.to_dict ∧
    httpLimitAccepted 0 = false := by
  refine ⟨fun hlim => ⟨?_, ?_⟩, ?_, rfl⟩
  · have : limit ≠ 0 := by omega
    simp [get_recent, pySliceLastN, this]
  · simp only [List.length_drop]
    omega
  · simp [get_recent, pySliceLastN]

/-- Witness for `get_recent_zero_limit`: on a two-entry buffer, `limit = 1`
returns the most recent entry while `limit = 0` returns both. -/
theorem get_recent_zero_limit_witness :
    get_recent ⟨[⟨⟨2024, 1, 5, 0, 0, 0, 0⟩, "a"⟩, ⟨⟨2024, 1, 5, 0, 0, 1, 0⟩, "b"⟩],
        [], ⟨[], none, none⟩⟩ 1 =
      [LogEntry.to_dict ⟨⟨2024, 1, 5, 0, 0, 1, 0⟩, "b"⟩] ∧
    get_recent ⟨[⟨⟨2024, 1, 5, 0, 0, 0, 0⟩, "a"⟩, ⟨⟨2024, 1, 5, 0, 0, 1, 0⟩, "b"⟩],
        [], ⟨[], none, none⟩⟩ 0 =
      [LogEntry.to_dict ⟨⟨2024, 1, 5, 0, 0, 0, 0⟩, "a"⟩,
       LogEntry.to_dict ⟨⟨2024, 1, 5, 0, 0, 1, 0⟩, "b"⟩] := by
  constructor
  · rw [(get_recent_zero_limit
      ⟨[⟨⟨2024, 1, 5, 0, 0, 0, 0⟩, "a"⟩, ⟨⟨2024, 1, 5, 0, 0, 1, 0⟩, "b"⟩],
        [], ⟨[], none, none⟩⟩ 1).1 (by omega) |>.1]
    rfl
  · rw [(get_recent_zero_limit
      ⟨[⟨⟨2024, 1, 5, 0, 0, 0, 0⟩, "a"⟩, ⟨⟨2024, 1, 5, 0, 0, 1, 0⟩, "b"⟩],
        [], ⟨[], none, none⟩⟩ 1).2.1]
    rfl

/-- Claim C5: a retention sweep with `write_to_file` enabled and
`keep_days > 0` deletes exactly the `*.log` files whose stem parses as a date
strictly older than `today − keep_days`; unparseable names survive;
`keep_days ≤ 0` is a no-op; and on files dated D−5, D−2, D with
`keep_days = 3` and "now" = D, only the D−5 file is deleted. -/
theorem retention_sweep_spec (cfg : Config) (today : Nat) (names : List String)
    (hw : cfg.write_to_file = true) :
    (0 < cfg.keep_days →
      ∀ name ∈ names,
        (name ∉ cleanup_files cfg today names ↔
          ∃ stem y m d, logStem name = some stem ∧
            parseDatePy stem = some (y, m, d) ∧
            (toOrdinal y m d : Int) < (today : Int) - cfg.keep_days)) ∧
    (cfg.keep_days ≤ 0 → cleanup_files cfg today names = names) ∧
    cleanup_files ⟨100, "logs", 3, true, []⟩ (toOrdinal 2024 1 10)
        ["2024-01-05.log", "2024-01-08.log", "2024-01-10.log"] =
      ["2024-01-08.log", "2024-01-10.log"] := by
  refine ⟨fun hk name hmem => ?_, fun hk => ?_, ?_⟩
  · rw [← sweepDeletes_iff ((today : Int) - cfg.keep_days) name]
    have hk' : ¬ cfg.keep_days ≤ 0 := by omega
    simp [cleanup_files, hw, hk', List.mem_filter, hmem]
  · simp [cleanup_files, hk]
  · decide

/-- Witness for `retention_sweep_spec`: the D−5 / D−2 / D scenario with
`keep_days = 3` run at the concrete configuration. -/
theorem retention_sweep_spec_witness :
    cleanup_files ⟨100, "logs", 3, true, []⟩ (toOrdinal 2024 1 10)
        ["2024-01-05.log", "2024-01-08.log", "2024-01-10.log"] =
      ["2024-01-08.log", "2024-01-10.log"] :=
  (retention_sweep_spec ⟨100, "logs", 3, true, []⟩ (toOrdinal 2024 1 10)
    ["2024-01-05.log", "2024-01-08.log", "2024-01-10.log"] rfl).2.2

/-- Claim C6: an entry's serialized form — an ISO-8601 UTC timestamp string
with a `Z` suffix (microsecond precision, hence millisecond or better; the
fractional part is omitted exactly when it is zero, losing nothing) together
with the raw message string — parses back to the exact original entry:
timestamp equal at full precision, message recovered verbatim. -/
theorem to_dict_roundtrip (e : LogEntry) (h : e.timestamp.Valid) :
    parseEntry (LogEntry.to_dict e) = some e ∧
    ∃ pre, (LogEntry.to_dict e).1.data = pre ++ ['Z'] := by
  constructor
  · obtain ⟨t, msg⟩ := e
    simp only [parseEntry, LogEntry.to_dict]
    rw [parseIso_iso t h]
    rfl
  · refine ⟨padDigits 4 e.timestamp.year ++ '-' ::
      (padDigits 2 e.timestamp.month ++ '-' ::
      (padDigits 2 e.timestamp.day ++ 'T' ::
      (padDigits 2 e.timestamp.hour ++ ':' ::
      (padDigits 2 e.timestamp.minute ++ ':' ::
      (padDigits 2 e.timestamp.second ++
        (if e.timestamp.microsecond = 0 then []
         else '.' :: padDigits 6 e.timestamp.microsecond)))))), ?_⟩
    simp [LogEntry.to_dict, isoTimestamp, List.append_assoc]

/-- Witness for `to_dict_roundtrip` at a concrete entry. -/
theorem to_dict_roundtrip_witness :
    parseEntry (LogEntry.to_dict ⟨⟨2024, 1, 5, 13, 2, 3, 45000⟩, "hello"⟩) =
      some ⟨⟨2024, 1, 5, 13, 2, 3, 45000⟩, "hello"⟩ :=
  (to_dict_roundtrip ⟨⟨2024, 1, 5, 13, 2, 3, 45000⟩, "hello"⟩ (by decide)).1

/-- Claim C7: one datagram with payload `"a\nb\n\nc"` and no allow-list
configured is decoded, split on line boundaries with the empty line skipped,
and handed off as exactly the lines `"a"`, `"b"`, `"c"` in order, producing
three entries with those messages in that order. -/
theorem datagram_split_scenario :
    datagram_received [] "203.0.113.9" "a\nb\n\nc" = ["a", "b", "c"] ∧
    ((ingestLines ⟨10, "logs", 0, false, []⟩ ⟨[], [], ⟨[], none, none⟩⟩
        ⟨2024, 1, 5, 12, 0, 0, 0⟩
        (datagram_received [] "203.0.113.9" "a\nb\n\nc")).buffer.map
      (fun e => e.message)) = ["a", "b", "c"] := by
  decide

end UDPWebLogger
